import Mathlib

/-!
Verification of the proposal60 web application (src/db.py, src/proposal_builder.py,
src/app.py) against its natural-language specification.

The Python source is shallowly embedded: pure functions become Lean functions,
the SQLite tables become explicit maps, HTTP handlers become functions from the
request data and the fetched row to a result and an updated row, and wall-clock
instants are modelled as rationals.  `hashlib.sha256` is implemented in full
(FIPS 180-4) over the UTF-8 bytes of the input, so every definition is
executable.
-/

/-! ## Python string primitives (as used by db.py / proposal_builder.py / app.py)

Python's `\s` (for ASCII text), `str.strip`, `str.lower`, `str.replace`,
`re.sub(r"\s+", " ", ·)`, `str.splitlines`, `str.lstrip("- ")` are modelled on
`List Char`.  Whitespace is the ASCII set ` \t\n\r\x0b\x0c`.
-/

def isPySpace (c : Char) : Bool :=
  c.toNat == 32 || c.toNat == 9 || c.toNat == 10 || c.toNat == 13 ||
  c.toNat == 11 || c.toNat == 12

/-- `str.strip()` on the character list: drop whitespace from both ends. -/
def pyStripList (l : List Char) : List Char :=
  (l.dropWhile isPySpace).rdropWhile isPySpace

def pyStrip (s : String) : String :=
  ⟨pyStripList s.data⟩

/-- `str.lower()` (ASCII case folding, as `Char.toLower` does). -/
def lowerList (l : List Char) : List Char :=
  l.map Char.toLower

def pyLower (s : String) : String :=
  ⟨lowerList s.data⟩

/-- `str.replace("\r\n", "\n")`: leftmost, non-overlapping. -/
def replCRLF : List Char → List Char
  | [] => []
  | [c] => [c]
  | c1 :: c2 :: rest =>
      if c1 = '\r' ∧ c2 = '\n' then '\n' :: replCRLF rest
      else c1 :: replCRLF (c2 :: rest)

/-- The single-character substitution of `str.replace("\r", "\n")`. -/
def crSub (c : Char) : Char :=
  if c = '\r' then '\n' else c

/-- `str.replace("\r", "\n")`. -/
def replCR (l : List Char) : List Char :=
  l.map crSub

/-- `re.sub(r"\s+", " ", ·)`: each maximal whitespace run becomes one space.
Structural recursion on a fuel bound keeps the definition kernel-executable;
`collapseWs_nil`/`collapseWs_cons` below recover the natural equations. -/
def collapseAux : Nat → List Char → List Char
  | 0, _ => []
  | _, [] => []
  | fuel + 1, c :: cs =>
      if isPySpace c then ' ' :: collapseAux fuel (cs.dropWhile isPySpace)
      else c :: collapseAux fuel cs

def collapseWs (l : List Char) : List Char :=
  collapseAux l.length l

/-! ## db.py: `_normalize` and `ai_input_hash` -/

/-- db.py `_normalize`.  The argument is `data.get(k) : Option String`
(`None` for a missing key); `if not text` catches both `None` and `""`. -/
def _normalize (t : Option String) : String :=
  match t with
  | none => ""
  | some s =>
      if s = "" then ""
      else ⟨collapseWs (replCR (replCRLF (lowerList (pyStripList s.data))))⟩

/-- The input dictionary handed to `ai_input_hash` / `build_proposal_text` /
`build_fallback_proposal`: one `Option String` per key that the source reads
(`none` = key absent). -/
structure PData where
  trade : Option String
  trade_profile : Option String
  service_type : Option String
  scope : Option String
  tone : Option String
  timeframe : Option String
  your_business : Option String
  abn : Option String
  price : Option String
  client_name : Option String
  deriving DecidableEq, Repr

def AI_CACHE_VERSION : String := "v1"

/-- The `parts` list built inside db.py `ai_input_hash`, in source order. -/
def ai_input_parts (data : PData) : List String :=
  [AI_CACHE_VERSION,
   _normalize data.trade,
   _normalize data.trade_profile,
   _normalize data.service_type,
   _normalize data.scope,
   _normalize data.tone,
   _normalize data.timeframe,
   _normalize data.your_business,
   _normalize data.abn]

/-- Python `"\n".join(parts)`. -/
def joinNL : List String → String
  | [] => ""
  | [x] => x
  | x :: xs => x ++ "\n" ++ joinNL xs

/-- `joined` in db.py `ai_input_hash`: the SHA-256 preimage. -/
def ai_input_preimage (data : PData) : String :=
  joinNL (ai_input_parts data)

/-! ## SHA-256 (hashlib.sha256(...).hexdigest()), FIPS 180-4, on Nat mod 2^32 -/

def w32 : Nat := 4294967296

def rotr32 (n x : Nat) : Nat :=
  ((x >>> n) ||| (x <<< (32 - n))) % w32

def shr32 (n x : Nat) : Nat := x >>> n

def bigSigma0 (x : Nat) : Nat := rotr32 2 x ^^^ rotr32 13 x ^^^ rotr32 22 x
def bigSigma1 (x : Nat) : Nat := rotr32 6 x ^^^ rotr32 11 x ^^^ rotr32 25 x
def smallSigma0 (x : Nat) : Nat := rotr32 7 x ^^^ rotr32 18 x ^^^ shr32 3 x
def smallSigma1 (x : Nat) : Nat := rotr32 17 x ^^^ rotr32 19 x ^^^ shr32 10 x

def chFn (x y z : Nat) : Nat := (x &&& y) ^^^ ((x ^^^ 4294967295) &&& z)
def majFn (x y z : Nat) : Nat := (x &&& y) ^^^ (x &&& z) ^^^ (y &&& z)

def k256 : List Nat :=
  [1116352408, 1899447441, 3049323471, 3921009573, 961987163, 1508970993,
   2453635748, 2870763221, 3624381080, 310598401, 607225278, 1426881987,
   1925078388, 2162078206, 2614888103, 3248222580, 3835390401, 4022224774,
   264347078, 604807628, 770255983, 1249150122, 1555081692, 1996064986,
   2554220882, 2821834349, 2952996808, 3210313671, 3336571891, 3584528711,
   113926993, 338241895, 666307205, 773529912, 1294757372, 1396182291,
   1695183700, 1986661051, 2177026350, 2456956037, 2730485921, 2820302411,
   3259730800, 3345764771, 3516065817, 3600352804, 4094571909, 275423344,
   430227734, 506948616, 659060556, 883997877, 958139571, 1322822218,
   1537002063, 1747873779, 1955562222, 2024104815, 2227730452, 2361852424,
   2428436474, 2756734187, 3204031479, 3329325298]

structure Hash8 where
  a : Nat
  b : Nat
  c : Nat
  d : Nat
  e : Nat
  f : Nat
  g : Nat
  h : Nat
  deriving DecidableEq, Repr

def initH : Hash8 :=
  ⟨1779033703, 3144134277, 1013904242, 2773480762, 1359893119, 2600822924,
   528734635, 1541459225⟩

/-- `k` big-endian bytes of `n`. -/
def bytesBE : Nat → Nat → List Nat
  | 0, _ => []
  | k + 1, n => bytesBE k (n / 256) ++ [n % 256]

/-- Group bytes into 32-bit big-endian words. -/
def wordsOfBytes : List Nat → List Nat
  | b0 :: b1 :: b2 :: b3 :: rest =>
      (((b0 * 256 + b1) * 256 + b2) * 256 + b3) :: wordsOfBytes rest
  | _ => []

/-- Append the next message-schedule word to `w` (which has length ≥ 16). -/
def schedStep (w : List Nat) : List Nat :=
  let n := w.length
  w ++ [(smallSigma1 (w.getD (n - 2) 0) + w.getD (n - 7) 0 +
         smallSigma0 (w.getD (n - 15) 0) + w.getD (n - 16) 0) % w32]

def buildSchedule : List Nat → Nat → List Nat
  | w, 0 => w
  | w, k + 1 => buildSchedule (schedStep w) k

def sha256Round (st : Hash8) (kw : Nat) : Hash8 :=
  let t1 := (st.h + bigSigma1 st.e + chFn st.e st.f st.g + kw) % w32
  let t2 := (bigSigma0 st.a + majFn st.a st.b st.c) % w32
  ⟨(t1 + t2) % w32, st.a, st.b, st.c, (st.d + t1) % w32, st.e, st.f, st.g⟩

def processBlock (st : Hash8) (block : List Nat) : Hash8 :=
  let w := buildSchedule (wordsOfBytes block) 48
  let kws := (k256.zip w).map fun p => (p.1 + p.2) % w32
  let r := kws.foldl sha256Round st
  ⟨(st.a + r.a) % w32, (st.b + r.b) % w32, (st.c + r.c) % w32,
   (st.d + r.d) % w32, (st.e + r.e) % w32, (st.f + r.f) % w32,
   (st.g + r.g) % w32, (st.h + r.h) % w32⟩

/-- SHA-256 padding: `0x80`, zeros to 56 mod 64, 8-byte big-endian bit length. -/
def sha256Pad (msg : List Nat) : List Nat :=
  let len := msg.length
  let r := (len + 1) % 64
  let zeros := if r ≤ 56 then 56 - r else 120 - r
  msg ++ [0x80] ++ List.replicate zeros 0 ++ bytesBE 8 (len * 8)

def chunksAux : Nat → List Nat → List (List Nat)
  | 0, _ => []
  | _, [] => []
  | fuel + 1, c :: cs => ((c :: cs).take 64) :: chunksAux fuel ((c :: cs).drop 64)

def chunks64 (l : List Nat) : List (List Nat) :=
  chunksAux l.length l

def sha256Bytes (msg : List Nat) : List Nat :=
  let fin := (chunks64 (sha256Pad msg)).foldl processBlock initH
  bytesBE 4 fin.a ++ bytesBE 4 fin.b ++ bytesBE 4 fin.c ++ bytesBE 4 fin.d ++
  bytesBE 4 fin.e ++ bytesBE 4 fin.f ++ bytesBE 4 fin.g ++ bytesBE 4 fin.h

/-- UTF-8 encoding of a Unicode code point. -/
def utf8Enc (n : Nat) : List Nat :=
  if n < 0x80 then [n]
  else if n < 0x800 then
    [0xC0 ||| (n >>> 6), 0x80 ||| (n &&& 0x3F)]
  else if n < 0x10000 then
    [0xE0 ||| (n >>> 12), 0x80 ||| ((n >>> 6) &&& 0x3F), 0x80 ||| (n &&& 0x3F)]
  else
    [0xF0 ||| (n >>> 18), 0x80 ||| ((n >>> 12) &&& 0x3F),
     0x80 ||| ((n >>> 6) &&& 0x3F), 0x80 ||| (n &&& 0x3F)]

def strBytes (s : String) : List Nat :=
  (s.data.map Char.toNat).flatMap utf8Enc

def hexChar (n : Nat) : Char :=
  if n < 10 then Char.ofNat (48 + n) else Char.ofNat (87 + n)

def sha256Hex (s : String) : String :=
  ⟨((sha256Bytes (strBytes s)).map fun b => [hexChar (b / 16), hexChar (b % 16)]).flatten⟩

/-- A SHA-256 collision: two distinct strings with the same digest.  Key
inequalities below are stated up to this possibility. -/
def Sha256Collision : Prop :=
  ∃ s1 s2 : String, s1 ≠ s2 ∧ sha256Hex s1 = sha256Hex s2

/-- db.py `ai_input_hash`. -/
def ai_input_hash (data : PData) : String :=
  sha256Hex (ai_input_preimage data)

/-- Sanity check of the SHA-256 implementation against the FIPS 180-4 test
vector for "abc". -/
theorem sha256Hex_abc :
    sha256Hex "abc" =
      "ba7816bf8f01cfea414140de5dae2223b00361a396177a9cb410ff61f20015ad" := by
  decide

/-! ## Claim C3: cache key discrimination -/

theorem str_append_cancel_left {a b c : String} (h : a ++ b = a ++ c) : b = c := by
  apply String.ext
  have h2 := congrArg String.data h
  simp only [String.data_append] at h2
  exact List.append_cancel_left h2

theorem str_append_cancel_right {a b c : String} (h : a ++ c = b ++ c) : a = b := by
  apply String.ext
  have h2 := congrArg String.data h
  simp only [String.data_append] at h2
  exact List.append_cancel_right h2

/-- Joining nine parts with `"\n"` is injective in the fifth part when the
other eight parts coincide. -/
theorem joinNL_fifth_inj {v a b c s1 s2 e f g h : String}
    (heq : joinNL [v, a, b, c, s1, e, f, g, h] = joinNL [v, a, b, c, s2, e, f, g, h]) :
    s1 = s2 := by
  simp only [joinNL, String.append_assoc] at heq
  have h1 := str_append_cancel_left heq
  have h2 := str_append_cancel_left h1
  have h3 := str_append_cancel_left h2
  have h4 := str_append_cancel_left h3
  have h5 := str_append_cancel_left h4
  have h6 := str_append_cancel_left h5
  have h7 := str_append_cancel_left h6
  have h8 := str_append_cancel_left h7
  exact str_append_cancel_right h8

/-- Claim C3: for two input dictionaries that agree on every field except
`scope` and whose normalized scopes differ, `ai_input_hash` hashes different
preimages, so the cache keys differ unless SHA-256 collides; and for two
dictionaries differing only in `price` the key is identical, because `price`
is not among the hashed fields. -/
theorem c3_cache_key_discrimination (d1 d2 : PData)
    (hagree : d1 = { d2 with scope := d1.scope })
    (hscope : _normalize d1.scope ≠ _normalize d2.scope) :
    ai_input_preimage d1 ≠ ai_input_preimage d2 ∧
    (ai_input_hash d1 = ai_input_hash d2 → Sha256Collision) ∧
    ∀ (d : PData) (p : Option String),
      ai_input_hash { d with price := p } = ai_input_hash d := by
  have hne : ai_input_preimage d1 ≠ ai_input_preimage d2 := by
    intro hpre
    apply hscope
    cases d1 with
    | mk t1 tp1 st1 sc1 tn1 tf1 yb1 ab1 pr1 cn1 =>
      cases d2 with
      | mk t2 tp2 st2 sc2 tn2 tf2 yb2 ab2 pr2 cn2 =>
        simp only [PData.mk.injEq] at hagree
        obtain ⟨h1, h2, h3, -, h5, h6, h7, h8, -, -⟩ := hagree
        subst h1 h2 h3 h5 h6 h7 h8
        simp only [ai_input_preimage, ai_input_parts] at hpre
        exact joinNL_fifth_inj hpre
  refine ⟨hne, fun hh => ⟨_, _, hne, hh⟩, fun d p => rfl⟩

def c3Sample1 : PData :=
  ⟨some "plumber", some "profile", some "Bathroom renovation", some "Replace the shower unit",
   some "Professional", some "2 weeks", some "Acme Plumbing", some "123", some "$4000", some "Jo"⟩

def c3Sample2 : PData :=
  { c3Sample1 with scope := some "Install a new vanity" }

theorem c3_cache_key_discrimination_witness :
    ai_input_preimage c3Sample1 ≠ ai_input_preimage c3Sample2 ∧
    (ai_input_hash c3Sample1 = ai_input_hash c3Sample2 → Sha256Collision) := by
  have h := c3_cache_key_discrimination c3Sample1 c3Sample2 rfl (by decide)
  exact ⟨h.1, h.2.1⟩

/-! ## Claim C9: normalization determinism

`_normalize` is shown to depend only on the sequence of case-folded
whitespace-separated words of its input (`lowerWordsOpt` below), which is
exactly what is invariant under changes of leading/trailing whitespace,
letter case, line-ending style and internal whitespace runs. -/

theorem length_dropWhile_le {α : Type} (p : α → Bool) (l : List α) :
    (l.dropWhile p).length ≤ l.length :=
  (List.dropWhile_suffix p).length_le

theorem collapseAux_congr :
    ∀ f1 : Nat, ∀ f2 : Nat, ∀ l : List Char, l.length ≤ f1 → l.length ≤ f2 →
      collapseAux f1 l = collapseAux f2 l := by
  intro f1
  induction f1 with
  | zero =>
      intro f2 l h1 _
      have : l = [] := List.eq_nil_of_length_eq_zero (Nat.le_zero.mp h1)
      subst this
      cases f2 <;> rfl
  | succ n ih =>
      intro f2 l h1 h2
      cases l with
      | nil => cases f2 <;> rfl
      | cons c cs =>
          cases f2 with
          | zero => exact absurd h2 (by simp)
          | succ m =>
              simp only [collapseAux]
              by_cases hc : isPySpace c
              · rw [if_pos hc, if_pos hc]
                have hd := length_dropWhile_le isPySpace cs
                rw [ih m (cs.dropWhile isPySpace)
                  (Nat.le_trans hd (Nat.le_of_succ_le_succ h1))
                  (Nat.le_trans hd (Nat.le_of_succ_le_succ h2))]
              · rw [if_neg hc, if_neg hc,
                  ih m cs (Nat.le_of_succ_le_succ h1) (Nat.le_of_succ_le_succ h2)]

theorem collapseWs_nil : collapseWs [] = [] := rfl

theorem collapseWs_cons (c : Char) (cs : List Char) :
    collapseWs (c :: cs) =
      if isPySpace c then ' ' :: collapseWs (cs.dropWhile isPySpace)
      else c :: collapseWs cs := by
  show collapseAux (c :: cs).length (c :: cs) = _
  simp only [collapseAux, List.length_cons]
  by_cases hc : isPySpace c
  · rw [if_pos hc, if_pos hc,
      collapseAux_congr cs.length (cs.dropWhile isPySpace).length (cs.dropWhile isPySpace)
        (length_dropWhile_le isPySpace cs) (Nat.le_refl _)]
    rfl
  · rw [if_neg hc, if_neg hc]
    rfl

def notSpace (c : Char) : Bool := !(isPySpace c)

/-- Maximal whitespace-separated non-whitespace runs ("words") of a list. -/
def wordsByAux : Nat → List Char → List (List Char)
  | 0, _ => []
  | _, [] => []
  | fuel + 1, c :: cs =>
      if isPySpace c then wordsByAux fuel cs
      else (c :: cs.takeWhile notSpace) :: wordsByAux fuel (cs.dropWhile notSpace)

def wordsBy (l : List Char) : List (List Char) :=
  wordsByAux l.length l

/-- Join words with a single space. -/
def joinSp : List (List Char) → List Char
  | [] => []
  | [w] => w
  | w :: ws => w ++ ' ' :: joinSp ws

/-- The case-folded word sequence of an optional string: the complete
invariant of `_normalize`. -/
def lowerWordsOpt : Option String → List (List Char)
  | none => []
  | some s => (wordsBy s.data).map lowerList

theorem wordsByAux_congr :
    ∀ f1 : Nat, ∀ f2 : Nat, ∀ l : List Char, l.length ≤ f1 → l.length ≤ f2 →
      wordsByAux f1 l = wordsByAux f2 l := by
  intro f1
  induction f1 with
  | zero =>
      intro f2 l h1 _
      have : l = [] := List.eq_nil_of_length_eq_zero (Nat.le_zero.mp h1)
      subst this
      cases f2 <;> rfl
  | succ n ih =>
      intro f2 l h1 h2
      cases l with
      | nil => cases f2 <;> rfl
      | cons c cs =>
          cases f2 with
          | zero => exact absurd h2 (by simp)
          | succ m =>
              simp only [wordsByAux]
              by_cases hc : isPySpace c
              · rw [if_pos hc, if_pos hc]
                exact ih m cs (Nat.le_of_succ_le_succ h1) (Nat.le_of_succ_le_succ h2)
              · rw [if_neg hc, if_neg hc]
                have hd := length_dropWhile_le notSpace cs
                rw [ih m (cs.dropWhile notSpace)
                  (Nat.le_trans hd (Nat.le_of_succ_le_succ h1))
                  (Nat.le_trans hd (Nat.le_of_succ_le_succ h2))]

theorem wordsBy_nil : wordsBy [] = [] := rfl

theorem wordsBy_cons (c : Char) (cs : List Char) :
    wordsBy (c :: cs) =
      if isPySpace c then wordsBy cs
      else (c :: cs.takeWhile notSpace) :: wordsBy (cs.dropWhile notSpace) := by
  show wordsByAux (c :: cs).length (c :: cs) = _
  simp only [wordsByAux, List.length_cons]
  by_cases hc : isPySpace c
  · rw [if_pos hc, if_pos hc]
    rfl
  · rw [if_neg hc, if_neg hc,
      wordsByAux_congr cs.length (cs.dropWhile notSpace).length (cs.dropWhile notSpace)
        (length_dropWhile_le notSpace cs) (Nat.le_refl _)]
    rfl

theorem takeWhile_congr_pred {α : Type} (p q : α → Bool) (h : ∀ c, p c = q c)
    (l : List α) : l.takeWhile p = l.takeWhile q := by
  rw [funext h]

theorem dropWhile_congr_pred {α : Type} (p q : α → Bool) (h : ∀ c, p c = q c)
    (l : List α) : l.dropWhile p = l.dropWhile q := by
  rw [funext h]

theorem toNat_ofNat_small (n : Nat) (h : n < 55296) : (Char.ofNat n).toNat = n := by
  have hv : n.isValidChar := Or.inl h
  rw [Char.ofNat, dif_pos hv]
  rfl

theorem isPySpace_toLower (c : Char) : isPySpace c.toLower = isPySpace c := by
  simp only [Char.toLower]
  by_cases h : c.toNat ≥ 65 ∧ c.toNat ≤ 90
  · rw [if_pos h]
    have h1 : (Char.ofNat (c.toNat + 32)).toNat = c.toNat + 32 :=
      toNat_ofNat_small _ (by omega)
    have e1 : isPySpace (Char.ofNat (c.toNat + 32)) = false := by
      simp only [isPySpace, h1, Bool.or_eq_false_iff, beq_eq_false_iff_ne, ne_eq]
      omega
    have e2 : isPySpace c = false := by
      simp only [isPySpace, Bool.or_eq_false_iff, beq_eq_false_iff_ne, ne_eq]
      omega
    rw [e1, e2]
  · rw [if_neg h]

theorem notSpace_toLower (c : Char) : notSpace c.toLower = notSpace c := by
  simp [notSpace, isPySpace_toLower]

theorem wordsBy_space_nil (l : List Char) (h : ∀ x ∈ l, isPySpace x) :
    wordsBy l = [] := by
  induction l with
  | nil => rfl
  | cons c cs ih =>
      rw [wordsBy_cons, if_pos (h c (List.mem_cons_self c cs))]
      exact ih fun x hx => h x (List.mem_cons_of_mem c hx)

theorem wordsBy_dropWhile_space (l : List Char) :
    wordsBy (l.dropWhile isPySpace) = wordsBy l := by
  induction l with
  | nil => rfl
  | cons c cs ih =>
      rw [List.dropWhile_cons]
      by_cases hc : isPySpace c
      · rw [if_pos hc, ih, wordsBy_cons, if_pos hc]
      · rw [if_neg hc]

theorem takeWhile_notSpace_append_spaces (cs sp : List Char)
    (hsp : ∀ x ∈ sp, isPySpace x) :
    (cs ++ sp).takeWhile notSpace = cs.takeWhile notSpace := by
  induction cs with
  | nil =>
      cases sp with
      | nil => rfl
      | cons d ds =>
          have : notSpace d = false := by
            simp [notSpace, hsp d (List.mem_cons_self d ds)]
          simp [List.takeWhile_cons, this]
  | cons c cs ih =>
      rw [List.cons_append, List.takeWhile_cons, List.takeWhile_cons]
      by_cases hc : notSpace c
      · rw [if_pos hc, if_pos hc, ih]
      · rw [if_neg hc, if_neg hc]

theorem dropWhile_notSpace_append_spaces (cs sp : List Char)
    (hsp : ∀ x ∈ sp, isPySpace x) :
    (cs ++ sp).dropWhile notSpace = cs.dropWhile notSpace ++ sp := by
  induction cs with
  | nil =>
      cases sp with
      | nil => rfl
      | cons d ds =>
          have : notSpace d = false := by
            simp [notSpace, hsp d (List.mem_cons_self d ds)]
          simp [List.dropWhile_cons, this]
  | cons c cs ih =>
      rw [List.cons_append, List.dropWhile_cons, List.dropWhile_cons]
      by_cases hc : notSpace c
      · rw [if_pos hc, if_pos hc, ih]
      · rw [if_neg hc, if_neg hc, List.cons_append]

theorem wordsBy_append_space_aux :
    ∀ n : Nat, ∀ l sp : List Char, l.length ≤ n → (∀ x ∈ sp, isPySpace x) →
      wordsBy (l ++ sp) = wordsBy l := by
  intro n
  induction n with
  | zero =>
      intro l sp h1 hsp
      have : l = [] := List.eq_nil_of_length_eq_zero (Nat.le_zero.mp h1)
      subst this
      rw [List.nil_append, wordsBy_space_nil sp hsp, wordsBy_nil]
  | succ n ih =>
      intro l sp h1 hsp
      cases l with
      | nil => rw [List.nil_append, wordsBy_space_nil sp hsp, wordsBy_nil]
      | cons c cs =>
          rw [List.cons_append, wordsBy_cons, wordsBy_cons]
          by_cases hc : isPySpace c
          · rw [if_pos hc, if_pos hc]
            exact ih cs sp (Nat.le_of_succ_le_succ h1) hsp
          · rw [if_neg hc, if_neg hc,
              takeWhile_notSpace_append_spaces cs sp hsp,
              dropWhile_notSpace_append_spaces cs sp hsp]
            have hd := length_dropWhile_le notSpace cs
            rw [ih (cs.dropWhile notSpace) sp
              (Nat.le_trans hd (Nat.le_of_succ_le_succ h1)) hsp]

theorem wordsBy_append_space (l sp : List Char) (hsp : ∀ x ∈ sp, isPySpace x) :
    wordsBy (l ++ sp) = wordsBy l :=
  wordsBy_append_space_aux l.length l sp (Nat.le_refl _) hsp

theorem wordsBy_map_aux (f : Char → Char) (hf : ∀ c, isPySpace (f c) = isPySpace c) :
    ∀ n : Nat, ∀ l : List Char, l.length ≤ n →
      wordsBy (l.map f) = (wordsBy l).map (List.map f) := by
  have hfun : (notSpace ∘ f) = notSpace := by
    funext c
    simp [notSpace, Function.comp, hf]
  intro n
  induction n with
  | zero =>
      intro l h1
      have : l = [] := List.eq_nil_of_length_eq_zero (Nat.le_zero.mp h1)
      subst this
      rfl
  | succ n ih =>
      intro l h1
      cases l with
      | nil => rfl
      | cons c cs =>
          rw [List.map_cons, wordsBy_cons, wordsBy_cons]
          by_cases hc : isPySpace c
          · rw [if_pos (by rw [hf]; exact hc), if_pos hc]
            exact ih cs (Nat.le_of_succ_le_succ h1)
          · rw [if_neg (by rw [hf]; exact hc), if_neg hc,
              List.takeWhile_map, List.dropWhile_map, hfun]
            have hd := length_dropWhile_le notSpace cs
            rw [ih (cs.dropWhile notSpace)
              (Nat.le_trans hd (Nat.le_of_succ_le_succ h1))]
            simp

theorem wordsBy_lower (l : List Char) :
    wordsBy (lowerList l) = (wordsBy l).map lowerList :=
  wordsBy_map_aux Char.toLower isPySpace_toLower l.length l (Nat.le_refl _)


theorem isPySpace_crSub (c : Char) : isPySpace (crSub c) = isPySpace c := by
  by_cases h : c = '\r'
  · subst h
    decide
  · simp only [crSub]
    rw [if_neg h]

theorem crSub_of_nonspace (c : Char) (hc : isPySpace c = false) : crSub c = c := by
  have hne : c ≠ '\r' := by
    intro h
    subst h
    simp [isPySpace] at hc
  simp only [crSub]
  rw [if_neg hne]

theorem dropWhile_space_replCRLF :
    ∀ n : Nat, ∀ l : List Char, l.length ≤ n →
      (replCRLF l).dropWhile isPySpace = replCRLF (l.dropWhile isPySpace) := by
  intro n
  induction n with
  | zero =>
      intro l h1
      have : l = [] := List.eq_nil_of_length_eq_zero (Nat.le_zero.mp h1)
      subst this
      rfl
  | succ n ih =>
      intro l h1
      match l with
      | [] => rfl
      | [c] =>
          simp only [replCRLF, List.dropWhile_cons]
          by_cases hc : isPySpace c
          · rw [if_pos hc]
            rfl
          · rw [if_neg hc]
            rfl
      | c1 :: c2 :: rest =>
          simp only [replCRLF]
          by_cases hm : c1 = '\r' ∧ c2 = '\n'
          · rw [if_pos hm]
            obtain ⟨e1, e2⟩ := hm
            subst e1 e2
            rw [List.dropWhile_cons, if_pos (by decide),
              List.dropWhile_cons, if_pos (by decide),
              List.dropWhile_cons, if_pos (by decide)]
            have hr : rest.length ≤ n := by
              simp only [List.length_cons] at h1
              omega
            exact ih rest hr
          · rw [if_neg hm]
            by_cases hc1 : isPySpace c1
            · rw [List.dropWhile_cons, if_pos hc1,
                List.dropWhile_cons, if_pos hc1]
              have hr : (c2 :: rest).length ≤ n := by
                simp only [List.length_cons] at h1 ⊢
                omega
              exact ih (c2 :: rest) hr
            · rw [List.dropWhile_cons, if_neg hc1,
                List.dropWhile_cons, if_neg hc1]
              simp only [replCRLF]
              rw [if_neg hm]

theorem collapseWs_replCRLF_aux :
    ∀ n : Nat, ∀ l : List Char, l.length ≤ n →
      collapseWs (replCRLF l) = collapseWs l := by
  intro n
  induction n with
  | zero =>
      intro l h1
      have : l = [] := List.eq_nil_of_length_eq_zero (Nat.le_zero.mp h1)
      subst this
      rfl
  | succ n ih =>
      intro l h1
      match l with
      | [] => rfl
      | [c] => rfl
      | c1 :: c2 :: rest =>
          simp only [replCRLF]
          by_cases hm : c1 = '\r' ∧ c2 = '\n'
          · rw [if_pos hm]
            obtain ⟨e1, e2⟩ := hm
            subst e1 e2
            rw [collapseWs_cons, if_pos (by decide),
              collapseWs_cons, if_pos (by decide)]
            have hswap := dropWhile_space_replCRLF rest.length rest (Nat.le_refl _)
            rw [hswap]
            have hlen : (rest.dropWhile isPySpace).length ≤ n := by
              have := length_dropWhile_le isPySpace rest
              simp only [List.length_cons] at h1
              omega
            rw [ih (rest.dropWhile isPySpace) hlen,
              List.dropWhile_cons, if_pos (by decide)]
          · rw [if_neg hm]
            by_cases hc1 : isPySpace c1
            · rw [collapseWs_cons, if_pos hc1, collapseWs_cons, if_pos hc1]
              have hswap :=
                dropWhile_space_replCRLF (c2 :: rest).length (c2 :: rest) (Nat.le_refl _)
              rw [hswap]
              have hlen : ((c2 :: rest).dropWhile isPySpace).length ≤ n := by
                have := length_dropWhile_le isPySpace (c2 :: rest)
                simp only [List.length_cons] at h1 this
                omega
              rw [ih ((c2 :: rest).dropWhile isPySpace) hlen]
            · rw [collapseWs_cons, if_neg hc1, collapseWs_cons, if_neg hc1]
              have hlen : (c2 :: rest).length ≤ n := by
                simp only [List.length_cons] at h1 ⊢
                omega
              rw [ih (c2 :: rest) hlen]

theorem collapseWs_replCRLF (l : List Char) :
    collapseWs (replCRLF l) = collapseWs l :=
  collapseWs_replCRLF_aux l.length l (Nat.le_refl _)

theorem collapseWs_map_aux (f : Char → Char)
    (hsp : ∀ c, isPySpace (f c) = isPySpace c)
    (hns : ∀ c, isPySpace c = false → f c = c) :
    ∀ n : Nat, ∀ l : List Char, l.length ≤ n →
      collapseWs (l.map f) = collapseWs l := by
  intro n
  induction n with
  | zero =>
      intro l h1
      have : l = [] := List.eq_nil_of_length_eq_zero (Nat.le_zero.mp h1)
      subst this
      rfl
  | succ n ih =>
      intro l h1
      cases l with
      | nil => rfl
      | cons c cs =>
          rw [List.map_cons, collapseWs_cons, collapseWs_cons]
          by_cases hc : isPySpace c
          · rw [if_pos (by rw [hsp]; exact hc), if_pos hc,
              List.dropWhile_map,
              dropWhile_congr_pred (isPySpace ∘ f) isPySpace
                (fun c => by simp only [Function.comp_apply, hsp]) cs]
            have hd := length_dropWhile_le isPySpace cs
            rw [ih (cs.dropWhile isPySpace)
              (Nat.le_trans hd (Nat.le_of_succ_le_succ h1))]
          · rw [if_neg (by rw [hsp]; exact hc), if_neg hc,
              hns c (Bool.not_eq_true _ ▸ hc),
              ih cs (Nat.le_of_succ_le_succ h1)]

theorem collapseWs_replCR (l : List Char) :
    collapseWs (replCR l) = collapseWs l :=
  collapseWs_map_aux crSub isPySpace_crSub crSub_of_nonspace l.length l (Nat.le_refl _)

theorem dropWhile_space_lower (l : List Char) :
    (lowerList l).dropWhile isPySpace = lowerList (l.dropWhile isPySpace) := by
  rw [lowerList, List.dropWhile_map,
    dropWhile_congr_pred (isPySpace ∘ Char.toLower) isPySpace
      (fun c => by simp only [Function.comp_apply, isPySpace_toLower]) l]
  rfl

theorem pyStrip_lower_comm (l : List Char) :
    pyStripList (lowerList l) = lowerList (pyStripList l) := by
  rw [pyStripList, pyStripList, dropWhile_space_lower]
  rw [List.rdropWhile, List.rdropWhile]
  rw [lowerList, lowerList, ← List.map_reverse, List.dropWhile_map,
    dropWhile_congr_pred (isPySpace ∘ Char.toLower) isPySpace
      (fun c => by simp only [Function.comp_apply, isPySpace_toLower]),
    ← List.map_reverse]

theorem collapseWs_nonspace (l : List Char) (h : ∀ x ∈ l, isPySpace x = false) :
    collapseWs l = l := by
  induction l with
  | nil => rfl
  | cons c cs ih =>
      rw [collapseWs_cons, if_neg (by simp [h c (List.mem_cons_self c cs)]),
        ih fun x hx => h x (List.mem_cons_of_mem c hx)]

theorem collapseWs_append_nonspace (a b : List Char)
    (h : ∀ x ∈ a, isPySpace x = false) :
    collapseWs (a ++ b) = a ++ collapseWs b := by
  induction a with
  | nil => rfl
  | cons c a2 ih =>
      rw [List.cons_append, collapseWs_cons,
        if_neg (by simp [h c (List.mem_cons_self c a2)]), List.cons_append,
        ih fun x hx => h x (List.mem_cons_of_mem c hx)]

theorem collapseWs_spaces_append (sp d3 : List Char)
    (hsp : ∀ x ∈ sp, isPySpace x) (hne : sp ≠ [])
    (hd3 : d3.dropWhile isPySpace = d3) :
    collapseWs (sp ++ d3) = ' ' :: collapseWs d3 := by
  cases sp with
  | nil => exact absurd rfl hne
  | cons d ds =>
      rw [List.cons_append, collapseWs_cons,
        if_pos (hsp d (List.mem_cons_self d ds)),
        List.dropWhile_append_of_pos fun x hx => hsp x (List.mem_cons_of_mem d hx),
        hd3]

theorem rdropWhile_space_append_spaces (a b : List Char)
    (hb : ∀ x ∈ b, isPySpace x) :
    (a ++ b).rdropWhile isPySpace = a.rdropWhile isPySpace := by
  rw [List.rdropWhile, List.rdropWhile, List.reverse_append,
    List.dropWhile_append_of_pos fun x hx => hb x (List.mem_reverse.mp hx)]

theorem rdropWhile_nonspace (l : List Char) (h : ∀ x ∈ l, isPySpace x = false) :
    l.rdropWhile isPySpace = l := by
  apply List.rdropWhile_eq_self_iff.mpr
  intro hl
  simp [h _ (List.getLast_mem hl)]

theorem rdropWhile_append_keep (a b : List Char)
    (hb : b.rdropWhile isPySpace ≠ []) :
    (a ++ b).rdropWhile isPySpace = a ++ b.rdropWhile isPySpace := by
  have hbne : ¬ (b.reverse.dropWhile isPySpace).isEmpty = true := by
    intro h
    apply hb
    rw [List.rdropWhile, List.isEmpty_iff.mp h]
    rfl
  rw [List.rdropWhile, List.reverse_append, List.dropWhile_append, if_neg hbne,
    List.reverse_append, List.reverse_reverse, List.rdropWhile]

theorem rdropWhile_head_keep (p : Char → Bool) (l : List Char)
    (h : l.rdropWhile p ≠ []) :
    (l.rdropWhile p).head? = l.head? := by
  have hsuf : l.reverse.dropWhile p <:+ l.reverse := List.dropWhile_suffix p
  obtain ⟨t, ht⟩ := hsuf
  have hl : l = (l.reverse.dropWhile p).reverse ++ t.reverse := by
    have h2 : (t ++ l.reverse.dropWhile p).reverse = l.reverse.reverse := by rw [ht]
    rw [List.reverse_append, List.reverse_reverse] at h2
    exact h2.symm
  rw [List.rdropWhile] at h ⊢
  conv_rhs => rw [hl]
  rw [List.head?_append]
  cases hx : (l.reverse.dropWhile p).reverse.head? with
  | none => exact absurd (List.head?_eq_none_iff.mp hx) h
  | some a => rfl

theorem joinSp_cons_ne (w : List Char) (ws : List (List Char)) (h : ws ≠ []) :
    joinSp (w :: ws) = w ++ ' ' :: joinSp ws := by
  cases ws with
  | nil => exact absurd rfl h
  | cons a as => rfl


/-- Core normal form: stripping then collapsing whitespace yields exactly the
whitespace-separated words joined by single spaces. -/
theorem collapse_strip_aux :
    ∀ n : Nat, ∀ l : List Char, l.length ≤ n →
      collapseWs (pyStripList l) = joinSp (wordsBy l) := by
  intro n
  induction n with
  | zero =>
      intro l h1
      have : l = [] := List.eq_nil_of_length_eq_zero (Nat.le_zero.mp h1)
      subst this
      rfl
  | succ n ih =>
      intro l h1
      cases l with
      | nil => rfl
      | cons c cs =>
          by_cases hc : isPySpace c
          · have h2 : pyStripList (c :: cs) = pyStripList cs := by
              rw [pyStripList, pyStripList, List.dropWhile_cons, if_pos hc]
            rw [h2, wordsBy_cons, if_pos hc]
            exact ih cs (Nat.le_of_succ_le_succ h1)
          · have hcf : isPySpace c = false := by
              simpa using hc
            have hcs : cs.takeWhile notSpace ++ cs.dropWhile notSpace = cs :=
              List.takeWhile_append_dropWhile notSpace cs
            have hwns : ∀ x ∈ cs.takeWhile notSpace, isPySpace x = false := by
              intro x hx
              have := List.mem_takeWhile_imp hx
              simpa [notSpace] using this
            have hcwns : ∀ x ∈ c :: cs.takeWhile notSpace, isPySpace x = false := by
              intro x hx
              rcases List.mem_cons.mp hx with h | h
              · subst h
                exact hcf
              · exact hwns x h
            have hstrip : pyStripList (c :: cs) = (c :: cs).rdropWhile isPySpace := by
              rw [pyStripList, List.dropWhile_cons, if_neg hc]
            have hjoin : (c :: cs.takeWhile notSpace) ++ cs.dropWhile notSpace = c :: cs := by
              rw [List.cons_append, hcs]
            rw [hstrip, wordsBy_cons, if_neg hc]
            cases hrd : cs.dropWhile notSpace with
            | nil =>
                have hw : cs.takeWhile notSpace = cs := by
                  rw [hrd, List.append_nil] at hcs
                  exact hcs
                rw [hw] at hcwns
                rw [wordsBy_nil, hw, rdropWhile_nonspace _ hcwns,
                  collapseWs_nonspace _ hcwns]
                rfl
            | cons d r2 =>
                rw [hrd] at hjoin
                have hd0 := List.head?_dropWhile_not notSpace cs
                rw [hrd] at hd0
                simp only [List.head?_cons] at hd0
                have hd : isPySpace d = true := by
                  simpa [notSpace] using hd0
                cases hr3 : (d :: r2).dropWhile isPySpace with
                | nil =>
                    have hallr : ∀ x ∈ d :: r2, isPySpace x :=
                      List.dropWhile_eq_nil_iff.mp hr3
                    rw [wordsBy_space_nil _ hallr, ← hjoin,
                      rdropWhile_space_append_spaces _ _ hallr,
                      rdropWhile_nonspace _ hcwns,
                      collapseWs_nonspace _ hcwns]
                    rfl
                | cons e r4 =>
                    have he0 := List.head?_dropWhile_not isPySpace (d :: r2)
                    rw [hr3] at he0
                    simp only [List.head?_cons] at he0
                    have hens : isPySpace e = false := he0
                    have hts := List.takeWhile_append_dropWhile isPySpace (d :: r2)
                    rw [hr3] at hts
                    have hsp_ts : ∀ x ∈ (d :: r2).takeWhile isPySpace, isPySpace x :=
                      fun x hx => List.mem_takeWhile_imp hx
                    have hts_ne : (d :: r2).takeWhile isPySpace ≠ [] := by
                      rw [List.takeWhile_cons, if_pos hd]
                      simp
                    have hΔne : (e :: r4).rdropWhile isPySpace ≠ [] := by
                      intro h
                      have := List.rdropWhile_eq_nil_iff.mp h e (List.mem_cons_self e r4)
                      rw [hens] at this
                      exact Bool.false_ne_true this
                    have hΔhead : ((e :: r4).rdropWhile isPySpace).head? = some e := by
                      rw [rdropWhile_head_keep isPySpace _ hΔne]
                      rfl
                    have hΔdrop : ((e :: r4).rdropWhile isPySpace).dropWhile isPySpace =
                        (e :: r4).rdropWhile isPySpace := by
                      cases hΔ : (e :: r4).rdropWhile isPySpace with
                      | nil => rfl
                      | cons x xs =>
                          rw [hΔ] at hΔhead
                          simp only [List.head?_cons, Option.some.injEq] at hΔhead
                          subst hΔhead
                          rw [List.dropWhile_cons, if_neg (by simp [hens])]
                    have hsplit : c :: cs =
                        ((c :: cs.takeWhile notSpace) ++ (d :: r2).takeWhile isPySpace)
                          ++ (e :: r4) := by
                      rw [List.append_assoc, hts, hjoin]
                    have hlen : (e :: r4).length ≤ n := by
                      have l1 : (e :: r4).length ≤ (d :: r2).length := by
                        rw [← hr3]
                        exact length_dropWhile_le _ _
                      have l2 : (d :: r2).length ≤ cs.length := by
                        rw [← hrd]
                        exact length_dropWhile_le _ _
                      simp only [List.length_cons] at h1 l1 l2 ⊢
                      omega
                    have ihe := ih (e :: r4) hlen
                    have hstrip_e : pyStripList (e :: r4) = (e :: r4).rdropWhile isPySpace := by
                      rw [pyStripList, List.dropWhile_cons, if_neg (by simp [hens])]
                    rw [hstrip_e] at ihe
                    have hwr : wordsBy (d :: r2) = wordsBy (e :: r4) := by
                      rw [← wordsBy_dropWhile_space (d :: r2), hr3]
                    have hwne : wordsBy (e :: r4) ≠ [] := by
                      rw [wordsBy_cons, if_neg (by simp [hens])]
                      simp
                    rw [hsplit, rdropWhile_append_keep _ _ hΔne, List.append_assoc,
                      collapseWs_append_nonspace _ _ hcwns,
                      collapseWs_spaces_append _ _ hsp_ts hts_ne hΔdrop,
                      ihe, hwr, joinSp_cons_ne _ _ hwne]

theorem collapse_strip (l : List Char) :
    collapseWs (pyStripList l) = joinSp (wordsBy l) :=
  collapse_strip_aux l.length l (Nat.le_refl _)

/-- `_normalize` computes exactly the case-folded words joined by single
spaces: every other feature of the input (leading/trailing whitespace, letter
case, `\r\n`/`\r` versus `\n`, lengths of internal whitespace runs) is erased. -/
theorem _normalize_eq_joinSp (t : Option String) :
    (_normalize t).data = joinSp (lowerWordsOpt t) := by
  cases t with
  | none => rfl
  | some s =>
      by_cases hs : s = ""
      · subst hs
        rfl
      · show (if s = "" then "" else
            ⟨collapseWs (replCR (replCRLF (lowerList (pyStripList s.data))))⟩ :
            String).data = _
        rw [if_neg hs]
        show collapseWs (replCR (replCRLF (lowerList (pyStripList s.data)))) = _
        rw [collapseWs_replCR, collapseWs_replCRLF, ← pyStrip_lower_comm,
          collapse_strip, wordsBy_lower]
        rfl

theorem _normalize_words_congr (t1 t2 : Option String)
    (h : lowerWordsOpt t1 = lowerWordsOpt t2) :
    _normalize t1 = _normalize t2 := by
  apply String.ext
  rw [_normalize_eq_joinSp, _normalize_eq_joinSp, h]

/-- Claim C9: for two input dictionaries whose corresponding hashed fields
differ only in leading/trailing whitespace, letter case, line-ending style or
runs of internal whitespace — i.e. whose fields have the same case-folded
word sequences — `_normalize` maps the fields to the same strings
field-by-field, and `ai_input_hash` therefore returns the identical cache
key. -/
theorem c9_cache_key_normalization (d1 d2 : PData)
    (ht : lowerWordsOpt d1.trade = lowerWordsOpt d2.trade)
    (htp : lowerWordsOpt d1.trade_profile = lowerWordsOpt d2.trade_profile)
    (hst : lowerWordsOpt d1.service_type = lowerWordsOpt d2.service_type)
    (hsc : lowerWordsOpt d1.scope = lowerWordsOpt d2.scope)
    (htn : lowerWordsOpt d1.tone = lowerWordsOpt d2.tone)
    (htf : lowerWordsOpt d1.timeframe = lowerWordsOpt d2.timeframe)
    (hyb : lowerWordsOpt d1.your_business = lowerWordsOpt d2.your_business)
    (hab : lowerWordsOpt d1.abn = lowerWordsOpt d2.abn) :
    (_normalize d1.trade = _normalize d2.trade ∧
     _normalize d1.trade_profile = _normalize d2.trade_profile ∧
     _normalize d1.service_type = _normalize d2.service_type ∧
     _normalize d1.scope = _normalize d2.scope ∧
     _normalize d1.tone = _normalize d2.tone ∧
     _normalize d1.timeframe = _normalize d2.timeframe ∧
     _normalize d1.your_business = _normalize d2.your_business ∧
     _normalize d1.abn = _normalize d2.abn) ∧
    ai_input_hash d1 = ai_input_hash d2 := by
  have e1 := _normalize_words_congr _ _ ht
  have e2 := _normalize_words_congr _ _ htp
  have e3 := _normalize_words_congr _ _ hst
  have e4 := _normalize_words_congr _ _ hsc
  have e5 := _normalize_words_congr _ _ htn
  have e6 := _normalize_words_congr _ _ htf
  have e7 := _normalize_words_congr _ _ hyb
  have e8 := _normalize_words_congr _ _ hab
  refine ⟨⟨e1, e2, e3, e4, e5, e6, e7, e8⟩, ?_⟩
  rw [ai_input_hash, ai_input_hash, ai_input_preimage, ai_input_preimage,
    ai_input_parts, ai_input_parts, e1, e2, e3, e4, e5, e6, e7, e8]

def c9Sample1 : PData :=
  ⟨some "  Plumber ", some "PROFILE text", some "Bathroom Renovation",
   some "fix\r\nthe  sink", none, some "two\rweeks", some "ACME  plumbing",
   some " 123 ", some "$100", some "Jo"⟩

def c9Sample2 : PData :=
  ⟨some "plumber", some "profile TEXT", some "bathroom   renovation",
   some "Fix the sink", some "   ", some "Two weeks", some "acme plumbing",
   some "123", some "$999", some "Pat"⟩

theorem c9_cache_key_normalization_witness :
    (_normalize c9Sample1.trade = _normalize c9Sample2.trade ∧
     _normalize c9Sample1.trade_profile = _normalize c9Sample2.trade_profile ∧
     _normalize c9Sample1.service_type = _normalize c9Sample2.service_type ∧
     _normalize c9Sample1.scope = _normalize c9Sample2.scope ∧
     _normalize c9Sample1.tone = _normalize c9Sample2.tone ∧
     _normalize c9Sample1.timeframe = _normalize c9Sample2.timeframe ∧
     _normalize c9Sample1.your_business = _normalize c9Sample2.your_business ∧
     _normalize c9Sample1.abn = _normalize c9Sample2.abn) ∧
    ai_input_hash c9Sample1 = ai_input_hash c9Sample2 :=
  c9_cache_key_normalization c9Sample1 c9Sample2 (by decide) (by decide)
    (by decide) (by decide) (by decide) (by decide) (by decide) (by decide)

/-! ## proposal_builder.py: fallback builder and generation pipeline -/

/-- proposal_builder.py `TRADE_PROFILES` (verbatim values). -/
def TRADE_PROFILES : List (String × String) :=
  [("electrician",
    "\nYou are writing a professional proposal for an Australian licensed electrician.\nUse clear, compliant electrical trade language suitable for residential or light commercial work.\nReference safe installation practices, testing, and compliance with Australian Standards where appropriate.\nAvoid marketing language. Write as a qualified tradesperson quoting real work.\n"),
   ("plumber",
    "\nYou are writing a professional proposal for an Australian licensed plumber.\nUse practical plumbing trade language suitable for residential or light commercial work.\nReference installation, replacement, repair, and compliance obligations where relevant.\nKeep wording clear, direct, and client-ready. Avoid sales or marketing tone.\n"),
   ("builder",
    "\nYou are writing a professional proposal for an Australian builder or renovation contractor.\nUse construction-industry language suitable for residential building or renovation projects.\nDescribe work in terms of scope, materials, sequencing, and coordination.\nWrite clearly and professionally, as a builder quoting real on-site work.\n"),
   ("hvac",
    "\nYou are writing a professional proposal for an Australian HVAC contractor.\nUse correct heating, cooling, and ventilation trade terminology.\nReference installation, commissioning, and system performance where relevant.\nMaintain a professional, technical tone suitable for residential or commercial clients.\n"),
   ("carpenter",
    "\nYou are writing a professional proposal for an Australian carpenter or joiner.\nUse trade-accurate carpentry language covering framing, fix-out, or custom work.\nDescribe materials, workmanship, and installation methods clearly.\nWrite as an experienced tradesperson quoting practical carpentry work.\n"),
   ("tiler",
    "\nYou are writing a professional proposal for an Australian wall and floor tiler.\nUse correct tiling terminology covering surface preparation, waterproofing, and installation.\nReference alignment, finishes, and compliance where applicable.\nKeep language practical and trade-focused.\n"),
   ("painter",
    "\nYou are writing a professional proposal for an Australian painter and decorator.\nUse trade language covering surface preparation, coatings, application methods, and finishes.\nAvoid decorative or marketing language. Write as a professional outlining scope of painting works.\n"),
   ("landscaper",
    "\nYou are writing a professional proposal for an Australian landscaping contractor.\nUse clear language describing site preparation, hardscape or softscape works, and installation.\nReference materials, layout, and practical outcomes.\nWrite as a contractor quoting real outdoor works.\n"),
   ("concreter",
    "\nYou are writing a professional proposal for an Australian concreting contractor.\nUse trade-specific language covering formwork, reinforcement, placement, and finishing.\nDescribe works in practical terms suitable for residential or light commercial projects.\nAvoid promotional tone.\n"),
   ("roofer",
    "\nYou are writing a professional proposal for an Australian roofing contractor.\nUse correct roofing terminology covering repairs, replacement, or new installations.\nReference materials, fixing methods, and weatherproofing where relevant.\nWrite clearly as a tradesperson quoting roofing work.\n"),
   ("glazier",
    "\nYou are writing a professional proposal for an Australian glazier.\nUse trade-appropriate language describing glazing, installation, and safety considerations.\nReference measurements, materials, and fitting practices where applicable.\nMaintain a professional, technical tone.\n"),
   ("flooring",
    "\nYou are writing a professional proposal for an Australian flooring contractor.\nUse correct terminology for timber, laminate, vinyl, or carpet flooring installations.\nDescribe preparation, installation, and finishing works clearly.\nWrite as a contractor quoting real flooring work.\n"),
   ("handyman",
    "\nYou are writing a professional proposal for an Australian handyman or maintenance contractor.\nUse clear, practical language describing general repairs, installations, or minor works.\nKeep descriptions concise and client-ready without marketing or exaggeration.\n"),
   ("cleaner",
    "\nYou are writing a professional proposal for a commercial or residential cleaning service.\nUse clear service-based language focused on tasks, areas, and standards of cleanliness.\nAvoid marketing phrases. Write as an established service provider outlining scope of work.\n"),
   ("general",
    "\nYou are writing a professional proposal for an Australian trade or service contractor.\nUse practical, industry-appropriate language.\nClearly describe the work, scope, and expectations without marketing or embellishment.\n")]

/-- Characters treated as line boundaries by `str.splitlines` (the ASCII ones;
the exotic Unicode boundaries are not modelled). -/
def isLineBreak (c : Char) : Bool :=
  c == '\n' || c == '\r' || c == '\x0b' || c == '\x0c'

def splitlinesAux (cur : List Char) : List Char → List (List Char)
  | [] => [cur.reverse]
  | '\r' :: '\n' :: rest =>
      cur.reverse :: (if rest.isEmpty then [] else splitlinesAux [] rest)
  | c :: rest =>
      if isLineBreak c then
        cur.reverse :: (if rest.isEmpty then [] else splitlinesAux [] rest)
      else splitlinesAux (c :: cur) rest

/-- Python `str.splitlines()`. -/
def pySplitlines (s : String) : List String :=
  if s.data.isEmpty then [] else (splitlinesAux [] s.data).map fun l => ⟨l⟩

/-- Python `str.lstrip("- ")`: drop leading characters from the set `{-, space}`. -/
def lstripDashSpace (l : List Char) : List Char :=
  l.dropWhile fun c => c == '-' || c == ' '

/-- The bullet lines produced by the `for line in scope.splitlines()` loop of
`build_fallback_proposal`: lines whose cleaned text is empty are skipped. -/
def scope_bullets (scope : String) : List String :=
  (pySplitlines scope).filterMap fun line =>
    let clean := pyStrip ⟨lstripDashSpace line.data⟩
    if clean = "" then none else some ("- " ++ clean)

def fallback_overview (service business : String) : List String :=
  ["1. Overview",
   if business ≠ "" then
     "This proposal outlines the scope of works for " ++ service ++
       " to be carried out by " ++ business ++
       ". The work will be completed in accordance with standard trade practices and applicable requirements."
   else
     "This proposal outlines the scope of works for " ++ service ++
       ". The work will be completed in accordance with standard trade practices and applicable requirements.",
   ""]

def fallback_scope (scope : String) : List String :=
  "2. Scope of Work" ::
    (if scope = "" then ["- Details to be confirmed"] else scope_bullets scope) ++ [""]

def fallback_timeframe (timeframe : String) : List String :=
  if timeframe = "" then [] else ["3. Timeframe", timeframe, ""]

def fallback_pricing (idx : Nat) (price : String) : List String :=
  [toString idx ++ ". Pricing",
   if price = "" then "Pricing to be confirmed." else price,
   ""]

def fallback_acceptance (idx : Nat) (business : String) : List String :=
  [toString idx ++ ". Acceptance / Next Steps",
   "Please review the details above and contact us by phone or email to confirm acceptance or discuss any questions. If you have any modifications please feel free to contact us",
   "",
   "Kind regards,"] ++ (if business ≠ "" then [business] else [])

/-- The `lines` list built by proposal_builder.py `build_fallback_proposal`,
as the concatenation of its consecutive append blocks. -/
def build_fallback_lines (data : PData) : List String :=
  let client := pyStrip (data.client_name.getD "Client")
  let service := pyStrip (data.service_type.getD "the requested work")
  let scope := pyStrip (data.scope.getD "")
  let price := pyStrip (data.price.getD "")
  let timeframe := pyStrip (data.timeframe.getD "")
  let business := pyStrip (data.your_business.getD "")
  let pricingIdx := if timeframe = "" then 3 else 4
  ("Proposal for: " ++ client) :: "" ::
    fallback_overview service business ++
    fallback_scope scope ++
    fallback_timeframe timeframe ++
    fallback_pricing pricingIdx price ++
    fallback_acceptance (pricingIdx + 1) business

/-- proposal_builder.py `build_fallback_proposal`: `"\n".join(lines)`. -/
def build_fallback_proposal (data : PData) : String :=
  joinNL (build_fallback_lines data)

/-- Outcome of the `generate_proposal_ai` call: the text it returned, or the
exception it raised. -/
inductive AiResult where
  | ok (text : String)
  | failed
  deriving DecidableEq, Repr

/-- The `data["trade_profile"] = TRADE_PROFILES.get(trade, TRADE_PROFILES["general"])`
mutation at the top of `build_proposal_text`, with
`trade = (data.get("trade") or "general").strip().lower()`. -/
def withTradeProfile (data : PData) : PData :=
  let trade := pyLower (pyStrip (match data.trade with
    | none => "general"
    | some s => if s = "" then "general" else s))
  let profile := (TRADE_PROFILES.lookup trade).getD ((TRADE_PROFILES.lookup "general").getD "")
  { data with trade_profile := some profile }

/-- The cache key computed by `build_proposal_text` after the trade-profile
mutation. -/
def build_proposal_cache_key (data : PData) : String :=
  ai_input_hash (withTradeProfile data)

/-- proposal_builder.py `build_proposal_text`, shallowly embedded.  The row
returned by the cache SELECT for the computed key is `cacheRow`; `ai` is the
outcome of `generate_proposal_ai`; `cacheWriteOk` says whether the cache
INSERT/commit after a successful generation raised.  The AI call and the
INSERT share one `try/except`, whose handler returns the fallback; `track`
analytics calls sit in their own try/except no-ops and are omitted. -/
def build_proposal_text (data : PData) (cacheRow : Option String)
    (ai : AiResult) (cacheWriteOk : Bool) : String :=
  let data2 := withTradeProfile data
  match cacheRow with
  | some text => text
  | none =>
      match ai with
      | AiResult.ok text =>
          if cacheWriteOk then text else build_fallback_proposal data2
      | AiResult.failed => build_fallback_proposal data2

theorem joinNL_cons_cons (x y : String) (rest : List String) :
    joinNL (x :: y :: rest) = x ++ "\n" ++ joinNL (y :: rest) := rfl

theorem build_fallback_proposal_ne_empty (data : PData) :
    build_fallback_proposal data ≠ "" := by
  intro h
  rw [build_fallback_proposal, build_fallback_lines] at h
  simp only [List.cons_append] at h
  rw [joinNL_cons_cons] at h
  have hl := congrArg String.length h
  rw [String.length_append, String.length_append, String.length_append] at hl
  have h14 : ("Proposal for: " : String).length = 14 := rfl
  have h1 : ("\n" : String).length = 1 := rfl
  rw [h14, h1] at hl
  simp at hl

/-- Claim C4: for every input, `build_fallback_proposal` returns a non-empty
document; an empty price yields the literal line "Pricing to be confirmed.";
an empty timeframe yields no Timeframe section and Pricing/Acceptance numbered
3 and 4, while a non-empty timeframe yields Timeframe as section 3 and
Pricing/Acceptance numbered 4 and 5; an empty scope yields the placeholder
bullet "- Details to be confirmed" in the Scope of Work section. -/
theorem c4_fallback_structure (data : PData) :
    build_fallback_proposal data ≠ "" ∧
    (pyStrip (data.price.getD "") = "" →
      "Pricing to be confirmed." ∈ build_fallback_lines data) ∧
    (pyStrip (data.timeframe.getD "") = "" →
      fallback_timeframe (pyStrip (data.timeframe.getD "")) = [] ∧
      "3. Pricing" ∈ build_fallback_lines data ∧
      "4. Acceptance / Next Steps" ∈ build_fallback_lines data) ∧
    (pyStrip (data.timeframe.getD "") ≠ "" →
      "3. Timeframe" ∈ build_fallback_lines data ∧
      "4. Pricing" ∈ build_fallback_lines data ∧
      "5. Acceptance / Next Steps" ∈ build_fallback_lines data) ∧
    (pyStrip (data.scope.getD "") = "" →
      "- Details to be confirmed" ∈ build_fallback_lines data) := by
  have h3p : toString (3 : Nat) ++ ". Pricing" = "3. Pricing" := by decide
  have h4p : toString (4 : Nat) ++ ". Pricing" = "4. Pricing" := by decide
  have h4a : toString (4 : Nat) ++ ". Acceptance / Next Steps" =
      "4. Acceptance / Next Steps" := by decide
  have h5a : toString (5 : Nat) ++ ". Acceptance / Next Steps" =
      "5. Acceptance / Next Steps" := by decide
  refine ⟨build_fallback_proposal_ne_empty data, ?_, ?_, ?_, ?_⟩
  · intro hp
    simp [build_fallback_lines, fallback_pricing, hp]
  · intro ht
    refine ⟨by rw [ht]; rfl, ?_, ?_⟩
    · simp [build_fallback_lines, fallback_pricing, ht, ← h3p]
    · simp [build_fallback_lines, fallback_acceptance, ht, ← h4a]
  · intro ht
    refine ⟨?_, ?_, ?_⟩
    · simp [build_fallback_lines, fallback_timeframe, ht]
    · simp [build_fallback_lines, fallback_pricing, ht, ← h4p]
    · simp [build_fallback_lines, fallback_acceptance, ht, ← h5a]
  · intro hs
    simp [build_fallback_lines, fallback_scope, hs]

def c4Sample : PData :=
  ⟨some "tiler", none, some "Bathroom tiling", none, none, none, none, none,
   none, some "Jo"⟩

theorem c4_fallback_structure_witness :
    build_fallback_proposal c4Sample ≠ "" ∧
    "Pricing to be confirmed." ∈ build_fallback_lines c4Sample ∧
    fallback_timeframe (pyStrip (c4Sample.timeframe.getD "")) = [] ∧
    "3. Pricing" ∈ build_fallback_lines c4Sample ∧
    "4. Acceptance / Next Steps" ∈ build_fallback_lines c4Sample ∧
    "- Details to be confirmed" ∈ build_fallback_lines c4Sample := by
  have h := c4_fallback_structure c4Sample
  obtain ⟨h1, h2, h3, -, h5⟩ := h
  obtain ⟨h3a, h3b, h3c⟩ := h3 (by decide)
  exact ⟨h1, h2 (by decide), h3a, h3b, h3c, h5 (by decide)⟩

/-- Claim C5: generation never fails the request.  When the provider raises
(modelled by `AiResult.failed`), `build_proposal_text` returns the
deterministic fallback — a non-empty document — instead of propagating, and a
cache-write failure after a successful generation is likewise converted to the
fallback. -/
theorem c5_generation_never_fails (data : PData) (cacheWriteOk : Bool) :
    build_proposal_text data none AiResult.failed cacheWriteOk =
      build_fallback_proposal (withTradeProfile data) ∧
    build_proposal_text data none AiResult.failed cacheWriteOk ≠ "" ∧
    (∀ text : String,
      build_proposal_text data none (AiResult.ok text) false =
        build_fallback_proposal (withTradeProfile data)) := by
  refine ⟨rfl, ?_, fun text => rfl⟩
  show build_fallback_proposal (withTradeProfile data) ≠ ""
  exact build_fallback_proposal_ne_empty _

/-- Claim C10: in `build_proposal_text` the AI call and the cache INSERT share
one exception handler, so when generation succeeds but persisting to
`ai_proposal_cache` raises, the function returns the deterministic fallback
instead of the successfully generated text — indistinguishable from a
provider failure (whereas with a successful write the generated text is
returned). -/
theorem c10_cache_write_failure_discards (data : PData) (text : String) :
    build_proposal_text data none (AiResult.ok text) false =
      build_fallback_proposal (withTradeProfile data) ∧
    build_proposal_text data none (AiResult.ok text) false =
      build_proposal_text data none AiResult.failed false ∧
    build_proposal_text data none (AiResult.ok text) true = text :=
  ⟨rfl, rfl, rfl⟩

/-! ## app.py: rate limiter (`is_rate_limited`) -/

def RATE_LIMIT_PER_MINUTE : Nat := 10

/-- app.py `is_rate_limited`, acting on the per-IP deque map `_ip_hits`
(`defaultdict(deque)`: a missing key reads as the empty queue).  `time.time()`
instants are modelled as rationals.  The while-loop pops entries from the
front while they precede `now - 60`; the function returns the result together
with the updated map (the popping mutation persists even when limited). -/
def is_rate_limited (ip : String) (now : ℚ) (ipHits : String → List ℚ) :
    Bool × (String → List ℚ) :=
  let q := (ipHits ip).dropWhile fun t => decide (t < now - 60)
  if RATE_LIMIT_PER_MINUTE ≤ q.length then
    (true, fun k => if k = ip then q else ipHits k)
  else
    (false, fun k => if k = ip then q ++ [now] else ipHits k)

/-- A sequence of calls to `is_rate_limited` for the same identity at the
given instants, threading the map; returns the per-call results and the final
map. -/
def runCalls (ip : String) (ipHits : String → List ℚ) :
    List ℚ → List Bool × (String → List ℚ)
  | [] => ([], ipHits)
  | t :: ts =>
      let r := is_rate_limited ip t ipHits
      let rest := runCalls ip r.2 ts
      (r.1 :: rest.1, rest.2)

theorem dropWhile_lt_eq_self (c : ℚ) (q : List ℚ) (h : ∀ x ∈ q, ¬ x < c) :
    q.dropWhile (fun t => decide (t < c)) = q := by
  cases q with
  | nil => rfl
  | cons x xs =>
      rw [List.dropWhile_cons, if_neg]
      simp [h x (List.mem_cons_self x xs)]

theorem sorted_dropWhile_lt_eq_filter (c : ℚ) :
    ∀ q : List ℚ, q.Chain' (· ≤ ·) →
      q.dropWhile (fun t => decide (t < c)) = q.filter fun t => decide (c ≤ t) := by
  intro q
  induction q with
  | nil => intro _; rfl
  | cons x xs ih =>
      intro hch
      have hpw := (List.chain'_iff_pairwise.mp hch)
      have hch2 : xs.Chain' (· ≤ ·) := hch.tail
      rw [List.dropWhile_cons, List.filter_cons]
      by_cases hx : x < c
      · rw [if_pos (by simpa using hx), if_neg (by simp [not_le.mpr hx])]
        exact ih hch2
      · rw [if_neg (by simpa using hx), if_pos (by simpa using not_lt.mp hx)]
        have hxs : xs.filter (fun t => decide (c ≤ t)) = xs := by
          apply List.filter_eq_self.mpr
          intro a ha
          have hxa : x ≤ a := (List.pairwise_cons.mp hpw).1 a ha
          simpa using le_trans (not_lt.mp hx) hxa
        rw [hxs]

theorem runCalls_accept_aux (ip : String) (a b : ℚ) (hb : b ≤ a + 1) :
    ∀ ts : List ℚ, ∀ m : String → List ℚ,
      (∀ x ∈ m ip, a ≤ x ∧ x ≤ b) →
      (∀ x ∈ ts, a ≤ x ∧ x ≤ b) →
      (m ip).length + ts.length ≤ RATE_LIMIT_PER_MINUTE →
      (runCalls ip m ts).1 = List.replicate ts.length false ∧
      (runCalls ip m ts).2 ip = m ip ++ ts ∧
      ∀ k, k ≠ ip → (runCalls ip m ts).2 k = m k := by
  intro ts
  induction ts with
  | nil =>
      intro m _ _ _
      exact ⟨rfl, (List.append_nil _).symm, fun k _ => rfl⟩
  | cons t ts ih =>
      intro m hq hts hlen
      have hta : a ≤ t ∧ t ≤ b := hts t (List.mem_cons_self t ts)
      have hnodrop : (m ip).dropWhile (fun x => decide (x < t - 60)) = m ip := by
        apply dropWhile_lt_eq_self
        intro x hx
        have hax := (hq x hx).1
        have : t - 60 < a := by linarith [hta.2, hb]
        linarith
      have hlt : ¬ RATE_LIMIT_PER_MINUTE ≤ (m ip).length := by
        simp only [List.length_cons] at hlen
        omega
      have hstep : is_rate_limited ip t m =
          (false, fun k => if k = ip then m ip ++ [t] else m k) := by
        rw [is_rate_limited]
        simp only [hnodrop]
        rw [if_neg hlt]
      have hm2ip : (fun k => if k = ip then m ip ++ [t] else m k) ip = m ip ++ [t] := by
        simp
      have hq2 : ∀ x ∈ (fun k => if k = ip then m ip ++ [t] else m k) ip,
          a ≤ x ∧ x ≤ b := by
        rw [hm2ip]
        intro x hx
        rcases List.mem_append.mp hx with h | h
        · exact hq x h
        · rw [List.mem_singleton.mp h]
          exact hta
      have hts2 : ∀ x ∈ ts, a ≤ x ∧ x ≤ b :=
        fun x hx => hts x (List.mem_cons_of_mem t hx)
      have hlen2 : ((fun k => if k = ip then m ip ++ [t] else m k) ip).length
          + ts.length ≤ RATE_LIMIT_PER_MINUTE := by
        rw [hm2ip]
        simp only [List.length_append, List.length_singleton, List.length_cons,
          List.length_nil] at hlen ⊢
        omega
      obtain ⟨ih1, ih2, ih3⟩ :=
        ih (fun k => if k = ip then m ip ++ [t] else m k) hq2 hts2 hlen2
      refine ⟨?_, ?_, ?_⟩
      · show (is_rate_limited ip t m).1 ::
            (runCalls ip (is_rate_limited ip t m).2 ts).1 = _
        rw [hstep]
        rw [ih1]
        rfl
      · show (runCalls ip (is_rate_limited ip t m).2 ts).2 ip = _
        rw [hstep, ih2]
        simp [List.append_assoc]
      · intro k hk
        show (runCalls ip (is_rate_limited ip t m).2 ts).2 k = _
        rw [hstep, ih3 k hk]
        simp [hk]

/-- Claim C6: `is_rate_limited` first drops the timestamps older than 60
seconds before the call instant (for a chronologically ordered queue the
prefix drop is exactly that filter), then rejects without recording when 10
or more remain and records-and-accepts otherwise; consequently 10 calls
within one second from a fresh identity are all accepted, an 11th call inside
the same 60-second window is rejected without recording, and a call made
after the window has elapsed past every recorded timestamp is accepted
again. -/
theorem c6_rate_limiter_window
    (ip : String) (m : String → List ℚ) (now : ℚ)
    (ts : List ℚ) (a b u v : ℚ)
    (hsorted : (m ip).Chain' (· ≤ ·))
    (hb : b ≤ a + 1) (hts : ∀ x ∈ ts, a ≤ x ∧ x ≤ b) (hlen : ts.length = 10)
    (hu : u < a + 60) (hv : ∀ x ∈ ts, x + 60 < v) :
    ((m ip).dropWhile (fun t => decide (t < now - 60)) =
        (m ip).filter (fun t => decide (now - 60 ≤ t)) ∧
      (RATE_LIMIT_PER_MINUTE ≤
          ((m ip).dropWhile fun t => decide (t < now - 60)).length →
        (is_rate_limited ip now m).1 = true ∧
        (is_rate_limited ip now m).2 ip =
          (m ip).dropWhile fun t => decide (t < now - 60)) ∧
      (((m ip).dropWhile fun t => decide (t < now - 60)).length <
          RATE_LIMIT_PER_MINUTE →
        (is_rate_limited ip now m).1 = false ∧
        (is_rate_limited ip now m).2 ip =
          ((m ip).dropWhile fun t => decide (t < now - 60)) ++ [now])) ∧
    ((runCalls ip (fun _ => []) ts).1 = List.replicate 10 false ∧
      (runCalls ip (fun _ => []) ts).2 ip = ts ∧
      (is_rate_limited ip u (runCalls ip (fun _ => []) ts).2).1 = true ∧
      (is_rate_limited ip u (runCalls ip (fun _ => []) ts).2).2 ip = ts ∧
      (is_rate_limited ip v (runCalls ip (fun _ => []) ts).2).1 = false ∧
      (is_rate_limited ip v (runCalls ip (fun _ => []) ts).2).2 ip = [v]) := by
  constructor
  · refine ⟨sorted_dropWhile_lt_eq_filter _ _ hsorted, ?_, ?_⟩
    · intro hge
      rw [is_rate_limited]
      rw [if_pos hge]
      exact ⟨rfl, by simp⟩
    · intro hlt
      rw [is_rate_limited]
      rw [if_neg (by omega)]
      exact ⟨rfl, by simp⟩
  · obtain ⟨r1, r2, -⟩ := runCalls_accept_aux ip a b hb ts (fun _ => [])
      (by intro x hx; simp at hx) hts (by simp [hlen, RATE_LIMIT_PER_MINUTE])
    rw [hlen] at r1
    have r2' : (runCalls ip (fun _ => []) ts).2 ip = ts := by
      rw [r2]
      rfl
    have hnodrop_u : ts.dropWhile (fun x => decide (x < u - 60)) = ts := by
      apply dropWhile_lt_eq_self
      intro x hx
      have := (hts x hx).1
      linarith
    have hfull : RATE_LIMIT_PER_MINUTE ≤
        (ts.dropWhile fun x => decide (x < u - 60)).length := by
      rw [hnodrop_u, hlen]
      exact Nat.le_refl _
    have hdrop_v : ts.dropWhile (fun x => decide (x < v - 60)) = [] := by
      rw [List.dropWhile_eq_nil_iff]
      intro x hx
      have := hv x hx
      simp only [decide_eq_true_eq]
      linarith
    have hfull2 : RATE_LIMIT_PER_MINUTE ≤ ts.length := by
      rw [hlen]
      exact Nat.le_refl _
    refine ⟨r1, r2', ?_, ?_, ?_, ?_⟩
    · rw [is_rate_limited]
      simp only [r2', hnodrop_u]
      rw [if_pos hfull2]
    · rw [is_rate_limited]
      simp only [r2', hnodrop_u]
      rw [if_pos hfull2]
      simp
    · rw [is_rate_limited]
      simp only [r2', hdrop_v]
      rw [if_neg (by simp [RATE_LIMIT_PER_MINUTE])]
    · rw [is_rate_limited]
      simp only [r2', hdrop_v]
      rw [if_neg (by simp [RATE_LIMIT_PER_MINUTE])]
      simp

def c6Times : List ℚ :=
  [0, 0, 0, 0, 0, 1, 1, 1, 1, 1]

theorem c6_rate_limiter_window_witness :
    (runCalls "1.2.3.4" (fun _ => []) c6Times).1 = List.replicate 10 false ∧
    (runCalls "1.2.3.4" (fun _ => []) c6Times).2 "1.2.3.4" = c6Times ∧
    (is_rate_limited "1.2.3.4" 30 (runCalls "1.2.3.4" (fun _ => []) c6Times).2).1 = true ∧
    (is_rate_limited "1.2.3.4" 30 (runCalls "1.2.3.4" (fun _ => []) c6Times).2).2 "1.2.3.4" = c6Times ∧
    (is_rate_limited "1.2.3.4" 100 (runCalls "1.2.3.4" (fun _ => []) c6Times).2).1 = false ∧
    (is_rate_limited "1.2.3.4" 100 (runCalls "1.2.3.4" (fun _ => []) c6Times).2).2 "1.2.3.4" = [100] :=
  (c6_rate_limiter_window "1.2.3.4" (fun _ => []) 0 c6Times 0 1 30 100
    (by simp) (by norm_num) (by intro x hx; fin_cases hx <;> norm_num) (by decide)
    (by norm_num) (by intro x hx; fin_cases hx <;> norm_num)).2

/-! ## db.py: free-usage ledger -/

structure UsageRow where
  used_count : Int
  last_used_at : ℚ
  deriving DecidableEq, Repr

/-- db.py `get_free_usage`: `SELECT used_count FROM free_usage WHERE key = ?`,
returning 0 when no row exists.  The table is a map from key to row. -/
def get_free_usage (db : String → Option UsageRow) (key : String) : Int :=
  match db key with
  | some row => row.used_count
  | none => 0

/-- db.py `increment_free_usage`:
`INSERT ... VALUES (?, 1, ?) ON CONFLICT(key) DO UPDATE SET
 used_count = used_count + 1, last_used_at = excluded.last_used_at`. -/
def increment_free_usage (db : String → Option UsageRow) (key : String)
    (now : ℚ) : String → Option UsageRow :=
  fun k =>
    if k = key then
      match db key with
      | none => some ⟨1, now⟩
      | some row => some ⟨row.used_count + 1, now⟩
    else db k

/-- Claim C7: `get_free_usage` returns 0 for an unknown key;
`increment_free_usage` inserts a row at count 1 for an unknown key, adds
exactly 1 to an existing count (so two calls from scratch yield 2), always
refreshes `last_used_at` to the call instant, never decreases the count, and
touches no other key. -/
theorem c7_usage_ledger_upsert (db : String → Option UsageRow) (key : String)
    (now now2 : ℚ) :
    (db key = none → get_free_usage db key = 0) ∧
    (db key = none →
      get_free_usage (increment_free_usage db key now) key = 1) ∧
    get_free_usage (increment_free_usage db key now) key =
      get_free_usage db key + 1 ∧
    (increment_free_usage db key now key).map UsageRow.last_used_at = some now ∧
    get_free_usage db key ≤ get_free_usage (increment_free_usage db key now) key ∧
    (db key = none →
      get_free_usage
        (increment_free_usage (increment_free_usage db key now) key now2) key = 2) ∧
    ∀ k, k ≠ key → increment_free_usage db key now k = db k := by
  refine ⟨?_, ?_, ?_, ?_, ?_, ?_, ?_⟩
  · intro h
    rw [get_free_usage, h]
  · intro h
    rw [get_free_usage, increment_free_usage]
    simp [h]
  · rw [get_free_usage, get_free_usage, increment_free_usage]
    cases h : db key with
    | none => simp [h]
    | some row => simp [h]
  · rw [increment_free_usage]
    cases h : db key with
    | none => simp [h]
    | some row => simp [h]
  · cases h : db key with
    | none => simp [get_free_usage, increment_free_usage, h]
    | some row => simp [get_free_usage, increment_free_usage, h]
  · intro h
    rw [get_free_usage, increment_free_usage]
    simp [increment_free_usage, h]
  · intro k hk
    rw [increment_free_usage]
    simp [hk]

def c7Db : String → Option UsageRow := fun _ => none

theorem c7_usage_ledger_upsert_witness :
    get_free_usage c7Db "device-1" = 0 ∧
    get_free_usage (increment_free_usage c7Db "device-1" 5) "device-1" = 1 ∧
    get_free_usage
      (increment_free_usage (increment_free_usage c7Db "device-1" 5)
        "device-1" 6) "device-1" = 2 := by
  have h := c7_usage_ledger_upsert c7Db "device-1" 5 6
  exact ⟨h.1 rfl, h.2.1 rfl, h.2.2.2.2.2.1 rfl⟩

/-! ## app.py: magic-link tokens -/

def MAGIC_LINK_TTL_SECONDS : ℚ := 15 * 60

def MAGIC_LINK_SALT : String := "magic-link"

/-- The payload dict built by `generate_magic_token`. -/
structure MagicPayload where
  email : String
  purpose : String
  exp : ℚ
  deriving DecidableEq, Repr

/-- A value produced by itsdangerous `URLSafeSerializer(secret, salt).dumps`.
The HMAC itself is abstracted, soundly for structurally valid tokens: a blob
records the salt it was signed under, and `loads` on a serializer with a
different salt (or a tampered blob, modelled as an absent/foreign blob) fails
with `BadSignature`. -/
structure SignedBlob where
  salt : String
  payload : MagicPayload
  deriving DecidableEq, Repr

def serializerDumps (salt : String) (p : MagicPayload) : SignedBlob :=
  ⟨salt, p⟩

def serializerLoads (salt : String) (b : SignedBlob) : Option MagicPayload :=
  if b.salt = salt then some b.payload else none

/-- app.py `generate_magic_token`: payload `{email, purpose,
exp = time.time() + MAGIC_LINK_TTL_SECONDS}` signed by `_magic_signer`. -/
def generate_magic_token (now : ℚ) (email purpose : String) : SignedBlob :=
  serializerDumps MAGIC_LINK_SALT ⟨email, purpose, now + MAGIC_LINK_TTL_SECONDS⟩

/-- app.py `get_verified_email`: read the verified-email cookie (a parameter
here; `none` = absent), `loads` it with `_magic_signer` (`BadSignature` →
`None`), reject a mismatched `purpose`, then an expired `exp`. -/
def get_verified_email (purpose : String) (cookie : Option SignedBlob)
    (now : ℚ) : Option String :=
  match cookie with
  | none => none
  | some raw =>
      match serializerLoads MAGIC_LINK_SALT raw with
      | none => none
      | some data =>
          if data.purpose ≠ purpose then none
          else if now > data.exp then none
          else some data.email

/-- Claim C8: a token minted by `generate_magic_token` for purpose "billing"
deserializes successfully (its signature is structurally valid) yet
`get_verified_email` for purpose "restore_pro" returns no email for it, at any
check time; the same token is accepted for its own purpose, so the rejection
is purely the purpose isolation. -/
theorem c8_token_purpose_isolation (email : String) (mintTime checkTime : ℚ) :
    serializerLoads MAGIC_LINK_SALT
      (generate_magic_token mintTime email "billing") =
      some ⟨email, "billing", mintTime + MAGIC_LINK_TTL_SECONDS⟩ ∧
    get_verified_email "restore_pro"
      (some (generate_magic_token mintTime email "billing")) checkTime = none ∧
    get_verified_email "billing"
      (some (generate_magic_token mintTime email "billing")) mintTime =
      some email := by
  refine ⟨rfl, ?_, ?_⟩
  · rw [get_verified_email]
    show (match serializerLoads MAGIC_LINK_SALT
        (generate_magic_token mintTime email "billing") with
      | none => none
      | some data =>
          if data.purpose ≠ "restore_pro" then none
          else if checkTime > data.exp then none
          else some data.email) = none
    rw [show serializerLoads MAGIC_LINK_SALT
        (generate_magic_token mintTime email "billing") =
        some ⟨email, "billing", mintTime + MAGIC_LINK_TTL_SECONDS⟩ from rfl]
    simp
  · rw [get_verified_email]
    show (match serializerLoads MAGIC_LINK_SALT
        (generate_magic_token mintTime email "billing") with
      | none => none
      | some data =>
          if data.purpose ≠ "billing" then none
          else if mintTime > data.exp then none
          else some data.email) = some email
    rw [show serializerLoads MAGIC_LINK_SALT
        (generate_magic_token mintTime email "billing") =
        some ⟨email, "billing", mintTime + MAGIC_LINK_TTL_SECONDS⟩ from rfl]
    have hexp : ¬ mintTime > mintTime + MAGIC_LINK_TTL_SECONDS := by
      show ¬ mintTime > mintTime + (15 * 60 : ℚ)
      push_neg
      linarith
    simp [hexp]

/-! ## app.py: proposal acceptance workflow (`accept_proposal_post`) -/

inductive Status where
  | pending
  | accepted
  | declined
  deriving DecidableEq, Repr

/-- A row of the `proposals` table (db.py schema).  ISO-UTC instants that the
handler compares or writes (`accept_expires_at`, `responded_at`) are modelled
as rationals; `accept_expires_at` NULL is `none` (an empty-string value, also
falsy in Python, is not representable — the code only ever stores NULL or a
real instant). -/
structure Proposal where
  id : String
  created_at : String
  business_name : Option String
  client_name : Option String
  client_email : Option String
  total_price_cents : Option Int
  proposal_text : String
  proposal_hash : String
  status : Status
  responded_at : Option ℚ
  responded_name : Option String
  responded_ip : Option String
  decline_reason : Option String
  accept_token : Option String
  accept_expires_at : Option ℚ
  deriving DecidableEq, Repr

/-- The POST form fields read by the handler (`request.form.get`; `none` =
field absent). -/
structure AcceptForm where
  decision : Option String
  name : Option String
  decline_reason : Option String
  t : Option String
  deriving DecidableEq, Repr

inductive AcceptResult where
  | badRequest400
  | forbidden403
  | notFound404
  | redirectTo (location : String)
  deriving DecidableEq, Repr

/-- Python truthiness of an `Optional[str]`: `None` and `""` are falsy. -/
def optStrFalsy : Option String → Bool
  | none => true
  | some s => s == ""

/-- The `not proposal["accept_expires_at"] or utcnow() > fromisoformat(...)`
part of the validation disjunction. -/
def expiryBad (expiresAt : Option ℚ) (now : ℚ) : Bool :=
  match expiresAt with
  | none => true
  | some e => decide (now > e)

/-- app.py `accept_proposal_post`.  `row` is the result of
`SELECT * FROM proposals WHERE id = ?` — the only row the handler reads or
writes (the UPDATE is keyed on the same id) — and the returned pair is the
HTTP outcome together with that row afterwards.  `now` is
`datetime.utcnow()`, also standing for the `utc_now_iso()` written into
`responded_at`; `remote_addr` is `request.remote_addr`. -/
def accept_proposal_post (proposal_id : String) (form : AcceptForm)
    (row : Option Proposal) (now : ℚ) (remote_addr : String) :
    AcceptResult × Option Proposal :=
  let decision := form.decision
  let name := pyStrip (form.name.getD "")
  let decline_reason := pyStrip (form.decline_reason.getD "")
  let token := form.t
  if decision = some "accept" ∧ name = "" then
    (AcceptResult.badRequest400, row)
  else if decision = some "decline" ∧ decline_reason.length > 1000 then
    (AcceptResult.badRequest400, row)
  else if optStrFalsy token then
    (AcceptResult.forbidden403, row)
  else
    match row with
    | none => (AcceptResult.notFound404, none)
    | some proposal =>
        if proposal.status ≠ Status.pending ∨
            token ≠ proposal.accept_token ∨
            expiryBad proposal.accept_expires_at now then
          (AcceptResult.forbidden403, some proposal)
        else
          let new_status :=
            if decision = some "accept" then Status.accepted else Status.declined
          (AcceptResult.redirectTo ("/accept/" ++ proposal_id),
           some { proposal with
             status := new_status
             responded_at := some now
             responded_name :=
               if decision = some "accept" then some name else none
             responded_ip := some remote_addr
             decline_reason :=
               if decision = some "decline" then some decline_reason else none
             accept_token := none
             accept_expires_at := none })

/-- The two input-validation checks at the top of `accept_proposal_post` that
abort with 400 (a required name missing on accept, or an oversize decline
reason). -/
def formWellFormed (form : AcceptForm) : Prop :=
  ¬(form.decision = some "accept" ∧ pyStrip (form.name.getD "") = "") ∧
  ¬(form.decision = some "decline" ∧
      (pyStrip (form.decline_reason.getD "")).length > 1000)

instance (form : AcceptForm) : Decidable (formWellFormed form) := by
  rw [formWellFormed]
  infer_instance

/-- Any POST against a row whose validation gate fails (non-pending status,
wrong token, or bad expiry) leaves the row unchanged, and yields 403 whenever
the 400-input checks pass. -/
theorem accept_post_gate_rejects (proposal_id ip : String) (q : Proposal)
    (now : ℚ) (form : AcceptForm)
    (hgate : q.status ≠ Status.pending ∨ form.t ≠ q.accept_token ∨
      expiryBad q.accept_expires_at now = true) :
    (accept_proposal_post proposal_id form (some q) now ip).2 = some q ∧
    (formWellFormed form →
      (accept_proposal_post proposal_id form (some q) now ip).1 =
        AcceptResult.forbidden403) := by
  constructor
  · simp only [accept_proposal_post]
    by_cases h1 : form.decision = some "accept" ∧ pyStrip (form.name.getD "") = ""
    · rw [if_pos h1]
    · rw [if_neg h1]
      by_cases h2 : form.decision = some "decline" ∧
          (pyStrip (form.decline_reason.getD "")).length > 1000
      · rw [if_pos h2]
      · rw [if_neg h2]
        by_cases h3 : optStrFalsy form.t = true
        · rw [if_pos h3]
        · rw [if_neg h3, if_pos hgate]
  · intro hw
    simp only [accept_proposal_post]
    rw [if_neg hw.1, if_neg hw.2]
    by_cases h3 : optStrFalsy form.t = true
    · rw [if_pos h3]
    · rw [if_neg h3, if_pos hgate]

/-- Claim C1 (amended): a first POST carrying the stored token and a valid
decision transitions the pending row to accepted/declined, records
responded_at, the responder name (on accept) and IP, writes decline_reason
(the stripped supplied reason on decline, NULL on accept), clears the token
and expiry, and leaves the remaining columns (id, created_at, business_name,
client_name, client_email, total_price_cents, proposal_text, proposal_hash)
unchanged; afterwards every subsequent POST leaves the row unchanged, and is
rejected with 403 whenever it passes the input validation checks — in
particular a replay of the same token and decision gets 403 (a subsequent
POST that fails input validation gets 400 instead, which is the one
correction to the claim). -/
theorem c1_one_shot_acceptance (proposal_id ip : String) (p : Proposal)
    (tok : String) (e now : ℚ) (form : AcceptForm)
    (hs : p.status = Status.pending)
    (htok : p.accept_token = some tok)
    (hexp : p.accept_expires_at = some e)
    (hnow : ¬ now > e)
    (hft : form.t = some tok)
    (htne : tok ≠ "")
    (hvalid : (form.decision = some "accept" ∧ pyStrip (form.name.getD "") ≠ "") ∨
      (form.decision = some "decline" ∧
        (pyStrip (form.decline_reason.getD "")).length ≤ 1000)) :
    ∃ p2 : Proposal,
      accept_proposal_post proposal_id form (some p) now ip =
        (AcceptResult.redirectTo ("/accept/" ++ proposal_id), some p2) ∧
      p2.status =
        (if form.decision = some "accept" then Status.accepted
         else Status.declined) ∧
      p2.status ≠ Status.pending ∧
      p2.responded_at = some now ∧
      p2.responded_ip = some ip ∧
      p2.responded_name =
        (if form.decision = some "accept" then some (pyStrip (form.name.getD ""))
         else none) ∧
      p2.decline_reason =
        (if form.decision = some "decline" then
          some (pyStrip (form.decline_reason.getD "")) else none) ∧
      p2.accept_token = none ∧
      p2.accept_expires_at = none ∧
      p2.id = p.id ∧ p2.created_at = p.created_at ∧
      p2.business_name = p.business_name ∧ p2.client_name = p.client_name ∧
      p2.client_email = p.client_email ∧
      p2.total_price_cents = p.total_price_cents ∧
      p2.proposal_text = p.proposal_text ∧ p2.proposal_hash = p.proposal_hash ∧
      (∀ (form2 : AcceptForm) (now2 : ℚ) (ip2 : String),
        (accept_proposal_post proposal_id form2 (some p2) now2 ip2).2 = some p2 ∧
        (formWellFormed form2 →
          (accept_proposal_post proposal_id form2 (some p2) now2 ip2).1 =
            AcceptResult.forbidden403)) ∧
      (accept_proposal_post proposal_id form (some p2) now ip).1 =
        AcceptResult.forbidden403 := by
  have hif1 : ¬(form.decision = some "accept" ∧ pyStrip (form.name.getD "") = "") := by
    rcases hvalid with ⟨hd, hn⟩ | ⟨hd, _⟩
    · exact fun h => hn h.2
    · intro h
      rw [hd] at h
      simp at h
  have hif2 : ¬(form.decision = some "decline" ∧
      (pyStrip (form.decline_reason.getD "")).length > 1000) := by
    rcases hvalid with ⟨hd, _⟩ | ⟨hd, hr⟩
    · intro h
      rw [hd] at h
      simp at h
    · exact fun h => absurd h.2 (by omega)
  have hwf : formWellFormed form := ⟨hif1, hif2⟩
  have hif3 : ¬ (optStrFalsy form.t = true) := by
    rw [hft]
    simp [optStrFalsy, htne]
  have hgate : ¬(p.status ≠ Status.pending ∨ form.t ≠ p.accept_token ∨
      expiryBad p.accept_expires_at now = true) := by
    intro h
    rcases h with h | h | h
    · exact h hs
    · exact h (by rw [hft, htok])
    · rw [hexp] at h
      simp only [expiryBad, decide_eq_true_eq] at h
      exact hnow h
  use { p with
      status := if form.decision = some "accept" then Status.accepted
        else Status.declined
      responded_at := some now
      responded_name := if form.decision = some "accept" then
          some (pyStrip (form.name.getD "")) else none
      responded_ip := some ip
      decline_reason := if form.decision = some "decline" then
          some (pyStrip (form.decline_reason.getD "")) else none
      accept_token := none
      accept_expires_at := none }
  refine ⟨?_, rfl, ?_, rfl, rfl, rfl, rfl, rfl, rfl,
    rfl, rfl, rfl, rfl, rfl, rfl, rfl, rfl, ?_, ?_⟩
  · simp only [accept_proposal_post]
    rw [if_neg hif1, if_neg hif2, if_neg hif3, if_neg hgate]
  · by_cases hd : form.decision = some "accept"
    · simp [hd]
    · simp [hd]
  · intro form2 now2 ip2
    refine accept_post_gate_rejects proposal_id ip2 _ now2 form2 (Or.inl ?_)
    by_cases hd : form.decision = some "accept"
    · simp [hd]
    · simp [hd]
  · refine (accept_post_gate_rejects proposal_id ip _ now form (Or.inl ?_)).2 hwf
    by_cases hd : form.decision = some "accept"
    · simp [hd]
    · simp [hd]

def c1Proposal : Proposal :=
  ⟨"pid1", "2024-01-01T00:00:00+00:00", none, some "Client", none, none,
   "proposal text", "hash", Status.pending, none, none, none, none,
   some "tok123", some 100⟩

def c1FormOk : AcceptForm :=
  ⟨some "accept", some "Alice", none, some "tok123"⟩

theorem c1_one_shot_acceptance_witness :
    (accept_proposal_post "pid1" c1FormOk (some c1Proposal) 50 "9.9.9.9").1 =
      AcceptResult.redirectTo ("/accept/" ++ "pid1") ∧
    (accept_proposal_post "pid1" c1FormOk (some c1Proposal) 50 "9.9.9.9").2.map
      Proposal.status = some Status.accepted ∧
    (accept_proposal_post "pid1" c1FormOk (some c1Proposal) 50 "9.9.9.9").2.map
      Proposal.accept_token = some none ∧
    (accept_proposal_post "pid1" c1FormOk
      (accept_proposal_post "pid1" c1FormOk (some c1Proposal) 50 "9.9.9.9").2
      60 "9.9.9.9").1 = AcceptResult.forbidden403 := by
  obtain ⟨p2, h1, h2, h3, h4, h5, h6, hdr, h7, h8, f1, f2, f3, f4, f5, f6, f7,
      f8, hall, hreplay⟩ :=
    c1_one_shot_acceptance "pid1" "9.9.9.9" c1Proposal "tok123" 100 50 c1FormOk
      rfl rfl rfl (by decide) rfl (by decide) (Or.inl ⟨rfl, by decide⟩)
  rw [h1]
  refine ⟨rfl, ?_, ?_, ?_⟩
  · show some p2.status = some Status.accepted
    rw [h2]
    decide
  · show some p2.accept_token = some none
    rw [h7]
  · exact (hall c1FormOk 60 "9.9.9.9").2 (by decide)

/-- The row written by the first (successful) accept POST of the
counterexample scenario. -/
def c1AfterProposal : Proposal :=
  { c1Proposal with
    status := Status.accepted
    responded_at := some 50
    responded_name := some "Alice"
    responded_ip := some "9.9.9.9"
    decline_reason := none
    accept_token := none
    accept_expires_at := none }

def c1FormEmptyName : AcceptForm :=
  ⟨some "accept", some "", none, some "tok123"⟩

theorem c1_claim_counterexample :
    accept_proposal_post "pid1" c1FormOk (some c1Proposal) 50 "9.9.9.9" =
      (AcceptResult.redirectTo "/accept/pid1", some c1AfterProposal) ∧
    accept_proposal_post "pid1" c1FormEmptyName (some c1AfterProposal) 60
        "9.9.9.9" =
      (AcceptResult.badRequest400, some c1AfterProposal) ∧
    AcceptResult.badRequest400 ≠ AcceptResult.forbidden403 := by
  decide

/-- Claim C2 (amended): a POST to a pending proposal at an instant strictly
after the stored expiry changes no field of the row, and is rejected with a
403 whenever it passes the input-validation checks (a POST failing those
checks is rejected with a 400 instead — the one correction to the claim). -/
theorem c2_expiry_enforcement (proposal_id ip : String) (p : Proposal)
    (e now : ℚ) (form : AcceptForm)
    (_hs : p.status = Status.pending)
    (hexp : p.accept_expires_at = some e)
    (hnow : now > e) :
    (accept_proposal_post proposal_id form (some p) now ip).2 = some p ∧
    (formWellFormed form →
      (accept_proposal_post proposal_id form (some p) now ip).1 =
        AcceptResult.forbidden403) := by
  apply accept_post_gate_rejects
  apply Or.inr
  apply Or.inr
  rw [hexp]
  simp [expiryBad, hnow]

def c2Proposal : Proposal :=
  ⟨"pid2", "2024-01-01T00:00:00+00:00", none, some "Client", none, none,
   "text", "hash", Status.pending, none, none, none, none,
   some "tok456", some 100⟩

def c2FormLate : AcceptForm :=
  ⟨some "accept", some "Bob", none, some "tok456"⟩

theorem c2_expiry_enforcement_witness :
    (accept_proposal_post "pid2" c2FormLate (some c2Proposal) 200 "1.1.1.1").2 =
      some c2Proposal ∧
    (accept_proposal_post "pid2" c2FormLate (some c2Proposal) 200 "1.1.1.1").1 =
      AcceptResult.forbidden403 := by
  have h := c2_expiry_enforcement "pid2" "1.1.1.1" c2Proposal 100 200 c2FormLate
    rfl rfl (by decide)
  exact ⟨h.1, h.2 (by decide)⟩

def c2FormEmptyName : AcceptForm :=
  ⟨some "accept", some "", none, some "tok456"⟩

theorem c2_claim_counterexample :
    accept_proposal_post "pid2" c2FormEmptyName (some c2Proposal) 200 "1.1.1.1" =
      (AcceptResult.badRequest400, some c2Proposal) ∧
    AcceptResult.badRequest400 ≠ AcceptResult.forbidden403 := by
  decide
